import Mathlib

/-!
Verification development for the Proma Agent Session & Streaming Activity
Engine.

The definitions below are a shallow embedding of the TypeScript sources:

* `agent-session-manager.ts` (session index CRUD and JSONL transcripts),
* `workspace-watcher.ts` (debounced, classified file-change notifications),
* `ContextUsageBadge.tsx` (context-window usage classification),
* `ToolActivityItem.tsx` (activity group status and diff statistics).

File contents are modelled as `List Char` (absent files as `none`),
timestamps as `Nat`, and JSON (de)serialization of messages / of the index
as explicit function parameters, so that every operation is executable.
-/

namespace Proma

/-! ## String / line utilities

JavaScript's `raw.split('\n')` is embedded as `splitNl` on `List Char`,
`String.prototype.includes` as `containsSeg`, and the
`filter((line) => line.trim())` test as `isVisibleLine` (a line survives
exactly when it has a non-whitespace character). -/

/-- Split a character list at every newline, mirroring JS `split('\n')`:
the result is always nonempty, and empty segments are kept. -/
def splitNl : List Char → List (List Char)
  | [] => [[]]
  | c :: cs =>
    if c = '\n' then [] :: splitNl cs
    else
      match splitNl cs with
      | [] => [[c]]
      | l :: ls => (c :: l) :: ls

/-- Containment of a contiguous segment, mirroring JS `includes`. -/
def containsSeg (seg : List Char) : List Char → Bool
  | [] => seg.isPrefixOf []
  | c :: t => seg.isPrefixOf (c :: t) || containsSeg seg t

/-- A transcript line survives the `filter((line) => line.trim())` test
exactly when it contains a non-whitespace character. -/
def isVisibleLine (l : List Char) : Bool := l.any (fun c => !c.isWhitespace)

/-! ## Session store (`agent-session-manager.ts`)

`AgentSessionMeta` is the shared session record; the on-disk index document
is `AgentSessionsIndex`.  JSON parsing of the index file is an explicit
`parseIndex` parameter; the index file content is `Option String`
(`none` = `existsSync` fails). -/

structure AgentSessionMeta where
  id : String
  title : String
  channelId : Option String := none
  workspaceId : Option String := none
  sdkSessionId : Option String := none
  createdAt : Nat
  updatedAt : Nat
deriving DecidableEq, Repr

structure AgentSessionsIndex where
  version : Nat
  sessions : List AgentSessionMeta
deriving DecidableEq, Repr

/-- Current index version (`INDEX_VERSION` in the source). -/
def INDEX_VERSION : Nat := 1

/-- Embedding of `readIndex`: an absent file or a parse failure degrades to
the empty index. -/
def readIndex (parseIndex : String → Option AgentSessionsIndex)
    (file : Option String) : AgentSessionsIndex :=
  match file with
  | none => { version := INDEX_VERSION, sessions := [] }
  | some raw =>
    match parseIndex raw with
    | some idx => idx
    | none => { version := INDEX_VERSION, sessions := [] }

/-- The comparator `(a, b) => b.updatedAt - a.updatedAt` orders by
`updatedAt` descending. -/
def sessionDescLe (a b : AgentSessionMeta) : Bool := b.updatedAt ≤ a.updatedAt

/-- Embedding of `listAgentSessions` (JS `Array.prototype.sort` is a stable
sort, embedded as `mergeSort`). -/
def listAgentSessions (parseIndex : String → Option AgentSessionsIndex)
    (file : Option String) : List AgentSessionMeta :=
  (readIndex parseIndex file).sessions.mergeSort sessionDescLe

/-- Default title applied by `title || '新 Agent 会话'`. -/
def defaultAgentSessionTitle : String := "新 Agent 会话"

/-- Embedding of `createAgentSession`.  `now` stands for `Date.now()` and
`newId` for `randomUUID()`; the new record is pushed at the end of the
index.  JS `title || default` treats both `undefined` and `''` as falsy. -/
def createAgentSession (index : AgentSessionsIndex)
    (title channelId workspaceId : Option String) (now : Nat)
    (newId : String) : AgentSessionMeta × AgentSessionsIndex :=
  let meta : AgentSessionMeta :=
    { id := newId
      title := match title with
        | some t => if t = "" then defaultAgentSessionTitle else t
        | none => defaultAgentSessionTitle
      channelId := channelId
      workspaceId := workspaceId
      sdkSessionId := none
      createdAt := now
      updatedAt := now }
  (meta, { index with sessions := index.sessions ++ [meta] })

/-! ### Transcript (JSONL) operations

The transcript file content is `Option (List Char)`; message
(de)serialization is passed in as `parseMessage` / `stringifyMessage`
(JSON.parse on a line / JSON.stringify of a message).  A JS exception from
`JSON.parse` inside `lines.map(...)` aborts the whole `try` block, which is
exactly `List.mapM` over `Option`. -/

/-- Parse every line; the first `JSON.parse` exception aborts the whole
`lines.map(...)` call, i.e. any failure yields `none`. -/
def mapParse {M : Type} (parseMessage : List Char → Option M) :
    List (List Char) → Option (List M)
  | [] => some []
  | l :: ls =>
    match parseMessage l with
    | none => none
    | some m =>
      match mapParse parseMessage ls with
      | none => none
      | some ms => some (m :: ms)

/-- Embedding of `getAgentSessionMessages`: split into lines, drop blank
lines, parse each line; an absent file or any parse failure yields `[]`. -/
def getAgentSessionMessages {M : Type} (parseMessage : List Char → Option M)
    (file : Option (List Char)) : List M :=
  match file with
  | none => []
  | some raw =>
    let lines := (splitNl raw).filter isVisibleLine
    match mapParse parseMessage lines with
    | some msgs => msgs
    | none => []

/-- Embedding of `appendAgentMessage`: append one serialized line plus a
newline; `appendFileSync` creates an absent file. -/
def appendAgentMessage {M : Type} (stringifyMessage : M → List Char)
    (file : Option (List Char)) (message : M) : Option (List Char) :=
  some (file.getD [] ++ (stringifyMessage message ++ ['\n']))

/-- Transcript content produced by appending each message of `msgs`, in
order, to an initially absent transcript. -/
def encodeTranscript {M : Type} (stringifyMessage : M → List Char)
    (msgs : List M) : List Char :=
  (msgs.map (fun m => stringifyMessage m ++ ['\n'])).flatten

/-- Partial update accepted by `updateAgentSessionMeta`: exactly the four
allowed fields, each optionally supplied. -/
structure AgentSessionUpdates where
  title : Option String := none
  channelId : Option (Option String) := none
  sdkSessionId : Option (Option String) := none
  workspaceId : Option (Option String) := none
deriving DecidableEq, Repr

/-- The object spread `{ ...existing, ...updates, updatedAt: Date.now() }`. -/
def mergeSessionMeta (existing : AgentSessionMeta) (u : AgentSessionUpdates)
    (now : Nat) : AgentSessionMeta :=
  { existing with
    title := u.title.getD existing.title
    channelId := u.channelId.getD existing.channelId
    sdkSessionId := u.sdkSessionId.getD existing.sdkSessionId
    workspaceId := u.workspaceId.getD existing.workspaceId
    updatedAt := now }

/-- Embedding of `updateAgentSessionMeta`: find the record by id (`findIndex`),
throw a not-found error when absent, otherwise merge the allowed fields and
rewrite the index entry in place. -/
def updateAgentSessionMeta (index : List AgentSessionMeta) (id : String)
    (u : AgentSessionUpdates) (now : Nat) :
    Except String (List AgentSessionMeta × AgentSessionMeta) :=
  match h : index.findIdx? (fun s => s.id = id) with
  | none => .error ("Agent 会话不存在: " ++ id)
  | some i =>
    have hi : i < index.length := (List.findIdx?_eq_some_iff_findIdx_eq.mp h).1
    let updated := mergeSessionMeta index[i] u now
    .ok (index.set i updated, updated)

/-- On-disk index after a call to `updateAgentSessionMeta`: the source
throws before `writeIndex` runs, so an error leaves the file untouched. -/
def applyUpdateAgentSessionMeta (index : List AgentSessionMeta) (id : String)
    (u : AgentSessionUpdates) (now : Nat) : List AgentSessionMeta :=
  match updateAgentSessionMeta index id u now with
  | .error _ => index
  | .ok (newIndex, _) => newIndex

/-! ## Context usage monitor (`ContextUsageBadge.tsx`)

The component's classification is embedded as a total function into the
four render outcomes.  The constant `0.775` is the exact rational `31/40`
(for realistic token counts the double-precision `Math.floor` agrees with
the rational floor), and the `0.80` comparison is the exact rational
`4/5`. -/

inductive ContextUsageState
  | compacting
  | noData
  | normal
  | warning
deriving DecidableEq, Repr

/-- Compaction threshold `Math.floor(contextWindow * 0.775)`. -/
def compactThresholdOf (contextWindow : Nat) : Nat := contextWindow * 31 / 40

/-- Embedding of the `ContextUsageBadge` classification.  JS truthiness:
`!inputTokens` is true for `undefined` and `0`; `contextWindow ?` and
`compactThreshold ?` treat `undefined` and `0` as falsy. -/
def classifyContextUsage (inputTokens : Option Int)
    (contextWindow : Option Nat) (isCompacting : Bool) : ContextUsageState :=
  if isCompacting then .compacting
  else
    match inputTokens with
    | none => .noData
    | some i =>
      if i ≤ 0 then .noData
      else
        let compactThreshold : Option Nat :=
          match contextWindow with
          | some w => if w = 0 then none else some (compactThresholdOf w)
          | none => none
        let usageRatio : Option ℚ :=
          match compactThreshold with
          | some t => if t = 0 then none else some ((i : ℚ) / (t : ℚ))
          | none => none
        match usageRatio with
        | some r => if 4 / 5 ≤ r then .warning else .normal
        | none => .normal

/-! ## Activity model (`ToolActivityItem.tsx` and the spec's state machine)

`getActivityStatus` itself lives in `agent-atoms.ts`, which is not among
the provided sources; it is modelled from the spec (see its doc comment).
`derivedStatus` and `computeDiffStats` are embedded from
`ToolActivityItem.tsx`. -/

inductive ActivityStatus
  | pending
  | running
  | completed
  | error
  | backgrounded
deriving DecidableEq, Repr

/-- Non-terminal phase of an activity that is still in flight. -/
inductive LivePhase
  | pending
  | running
  | backgrounded
deriving DecidableEq, Repr

def LivePhase.toStatus : LivePhase → ActivityStatus
  | .pending => .pending
  | .running => .running
  | .backgrounded => .backgrounded

structure ToolActivity where
  toolUseId : String
  toolName : String
  parentToolUseId : Option String := none
  isError : Bool := false
  done : Bool := false
  phase : LivePhase := .running
deriving DecidableEq, Repr

/-- Modelled from the spec: `getActivityStatus` is imported from
`agent-atoms`, which is not among the provided sources.  Per the spec's
state machine, `done` is set exactly when a terminal state is reached, the
terminal state being `error` when `isError` is set and `completed`
otherwise; a non-done activity is in one of the non-terminal states
`pending`, `running`, or `backgrounded`, recorded here as `phase`. -/
def getActivityStatus (a : ToolActivity) : ActivityStatus :=
  if a.done then (if a.isError then .error else .completed) else a.phase.toStatus

/-- Embedding of `ActivityGroupRow.derivedStatus`: parent terminal status is
authoritative; otherwise, with a nonempty and fully-done child list, any
child error yields `error`, and `completed` is produced only when the
parent itself is done; in every remaining case the parent's own status is
returned. -/
def derivedStatus (parent : ToolActivity) (children : List ToolActivity) :
    ActivityStatus :=
  let selfStatus := getActivityStatus parent
  if selfStatus = .completed ∨ selfStatus = .error then selfStatus
  else if 0 < children.length ∧ children.all (·.done) then
    if children.any (·.isError) then .error
    else if parent.done then .completed
    else selfStatus
  else selfStatus

/-! ### Diff statistics -/

structure DiffStats where
  additions : Int
  deletions : Int
deriving DecidableEq, Repr

/-- The `old_string` / `new_string` fields of an Edit tool's input;
`none` stands for an absent or non-string field. -/
structure EditToolInput where
  old_string : Option String := none
  new_string : Option String := none
deriving DecidableEq, Repr

/-- Number of lines of a text block, i.e. `str.split('\n').length`. -/
def lineCount (s : String) : Nat := s.toList.count '\n' + 1

/-- Embedding of `computeDiffStats`: only the `Edit` tool produces stats,
both blocks empty produce `null`, and each count is the line-count delta
plus one, clamped at zero. -/
def computeDiffStats (toolName : String) (input : EditToolInput) :
    Option DiffStats :=
  if toolName = "Edit" then
    let oldStr := input.old_string.getD ""
    let newStr := input.new_string.getD ""
    if oldStr = "" ∧ newStr = "" then none
    else
      let oldLines : Int := (splitNl oldStr.toList).length
      let newLines : Int := (splitNl newStr.toList).length
      some { additions := max 0 (newLines - oldLines + 1)
             deletions := max 0 (oldLines - newLines + 1) }
  else none

/-! ## Workspace watcher (`workspace-watcher.ts`)

The watcher is embedded as a small machine driven by a time-ordered list of
external events: raw `fs.watch` callbacks, `stopWorkspaceWatcher`, and the
destruction of the target window.  Timers are stored as absolute fire
deadlines; before an event at time `t` is handled, every timer whose
deadline has passed fires (the event loop runs pending `setTimeout`
callbacks first), and after the whole trace the remaining timers fire.
`stopWorkspaceWatcher` only closes the `FSWatcher` — it does not clear the
two debounce timers. -/

inductive ChangeCat
  | capabilities
  | files
deriving DecidableEq, Repr

/-- Debounce window (`DEBOUNCE_MS`). -/
def DEBOUNCE_MS : Nat := 500

/-- Classification of a raw change path, mirroring the source's
`isCapabilitiesChange` test. -/
def isCapabilitiesChange (filename : List Char) : Bool :=
  "/mcp.json".toList.isSuffixOf filename ||
  "\\mcp.json".toList.isSuffixOf filename ||
  containsSeg "/skills/".toList filename ||
  containsSeg "\\skills/".toList filename

def classifyChange (filename : List Char) : ChangeCat :=
  if isCapabilitiesChange filename then .capabilities else .files

structure WatcherState where
  watching : Bool
  winDestroyed : Bool
  capabilitiesTimer : Option Nat
  filesTimer : Option Nat
deriving DecidableEq, Repr

/-- State right after `startWorkspaceWatcher` on a live window. -/
def initialWatcherState : WatcherState :=
  { watching := true, winDestroyed := false
    capabilitiesTimer := none, filesTimer := none }

inductive WatchEvent
  | change (filename : List Char)
  | stopWatcher
  | destroyWindow
deriving DecidableEq, Repr

/-- Fire one timer if its deadline is at most `t`; the fired `setTimeout`
callback delivers its notification only when the window is still alive
(it re-checks `win.isDestroyed()`). -/
def fireOne (pend : Option Nat) (c : ChangeCat) (winDestroyed : Bool)
    (t : Nat) : Option Nat × List (Nat × ChangeCat) :=
  match pend with
  | some d =>
    if d ≤ t then (none, if winDestroyed then [] else [(d, c)])
    else (some d, [])
  | none => (none, [])

/-- Fire every timer whose deadline is at most `t`. -/
def fireDue (s : WatcherState) (t : Nat) :
    WatcherState × List (Nat × ChangeCat) :=
  let capStep := fireOne s.capabilitiesTimer .capabilities s.winDestroyed t
  let fileStep := fireOne s.filesTimer .files s.winDestroyed t
  ({ s with capabilitiesTimer := capStep.1, filesTimer := fileStep.1 },
   capStep.2 ++ fileStep.2)

/-- Fire a still-pending timer after the last external event. -/
def flushOne (pend : Option Nat) (c : ChangeCat) (winDestroyed : Bool) :
    List (Nat × ChangeCat) :=
  match pend with
  | some d => if winDestroyed then [] else [(d, c)]
  | none => []

/-- Fire the timers still pending after the last external event. -/
def flushRemaining (s : WatcherState) : List (Nat × ChangeCat) :=
  flushOne s.capabilitiesTimer .capabilities s.winDestroyed ++
  flushOne s.filesTimer .files s.winDestroyed

/-- Handle one external event at time `t`.  A raw change is ignored when the
watcher is closed (no callback fires), when the filename is empty, or when
the window is destroyed; otherwise it re-arms the debounce timer of its
category.  `stopWorkspaceWatcher` only closes the watcher; destroying the
window only marks the sink gone. -/
def handleEvent (s : WatcherState) (t : Nat) : WatchEvent → WatcherState
  | .change filename =>
    if !s.watching then s
    else if filename.isEmpty || s.winDestroyed then s
    else if isCapabilitiesChange filename then
      { s with capabilitiesTimer := some (t + DEBOUNCE_MS) }
    else
      { s with filesTimer := some (t + DEBOUNCE_MS) }
  | .stopWatcher => { s with watching := false }
  | .destroyWindow => { s with winDestroyed := true }

/-- Run the watcher over a time-ordered trace of external events, collecting
the notifications sent to the renderer, each tagged with its delivery
time. -/
def runWatcher : WatcherState → List (Nat × WatchEvent) → List (Nat × ChangeCat)
  | s, [] => flushRemaining s
  | s, (t, e) :: rest =>
    let step := fireDue s t
    step.2 ++ runWatcher (handleEvent step.1 t e) rest

/-- Single-category debounce machine: `pend` is the pending deadline, the
list holds the raw event times of that category. -/
def debounceOne : Option Nat → List Nat → List Nat
  | some d, [] => [d]
  | none, [] => []
  | some d, t :: ts =>
    if d ≤ t then d :: debounceOne (some (t + DEBOUNCE_MS)) ts
    else debounceOne (some (t + DEBOUNCE_MS)) ts
  | none, t :: ts => debounceOne (some (t + DEBOUNCE_MS)) ts

/-- The last event of every burst: an event survives exactly when no
further event of the same category arrives within the debounce window. -/
def lastOfBursts : List Nat → List Nat
  | [] => []
  | [t] => [t]
  | t :: t' :: ts =>
    if t + DEBOUNCE_MS ≤ t' then t :: lastOfBursts (t' :: ts)
    else lastOfBursts (t' :: ts)

/-- Arrival times of the raw changes of one category (an empty filename is
discarded by the callback before classification). -/
def eventTimesOf (c : ChangeCat) (evs : List (Nat × List Char)) : List Nat :=
  (evs.filter (fun p => !p.2.isEmpty && decide (classifyChange p.2 = c))).map
    (fun p => p.1)

/-! ## Helper lemmas -/

theorem splitNl_ne_nil (l : List Char) : splitNl l ≠ [] := by
  cases l with
  | nil => simp [splitNl]
  | cons c cs =>
    simp only [splitNl]
    split
    · simp
    · split
      · simp
      · simp

theorem splitNl_append_newline (s rest : List Char) (h : '\n' ∉ s) :
    splitNl (s ++ '\n' :: rest) = s :: splitNl rest := by
  induction s with
  | nil => simp [splitNl]
  | cons c cs ih =>
    have hc : c ≠ '\n' := fun hc => h (by simp [hc])
    have hcs : '\n' ∉ cs := fun hm => h (by simp [hm])
    simp only [List.cons_append, splitNl, if_neg hc, List.append_eq, ih hcs]

theorem splitNl_length (l : List Char) :
    (splitNl l).length = l.count '\n' + 1 := by
  induction l with
  | nil => simp [splitNl]
  | cons c cs ih =>
    by_cases hc : c = '\n'
    · subst hc
      simp [splitNl, List.count_cons, ih]
    · have := splitNl_ne_nil cs
      simp only [splitNl, if_neg hc]
      cases hsp : splitNl cs with
      | nil => exact absurd hsp this
      | cons l ls =>
        rw [hsp] at ih
        simp only [List.length_cons] at ih ⊢
        simp [List.count_cons, hc, ih]

theorem mapParse_eq_none_of_mem {M : Type} (f : List Char → Option M)
    (l : List (List Char)) (h : ∃ a ∈ l, f a = none) : mapParse f l = none := by
  induction l with
  | nil => simp at h
  | cons a t ih =>
    rcases h with ⟨b, hb, hfb⟩
    rcases List.mem_cons.mp hb with rfl | hbt
    · simp [mapParse, hfb]
    · cases hfa : f a
      · simp [mapParse, hfa]
      · simp [mapParse, hfa, ih ⟨b, hbt, hfb⟩]

theorem mapParse_map {M : Type} (parse : List Char → Option M)
    (strg : M → List Char) (msgs : List M)
    (h : ∀ m, parse (strg m) = some m) :
    mapParse parse (msgs.map strg) = some msgs := by
  induction msgs with
  | nil => simp [mapParse]
  | cons m t ih => simp [mapParse, h m, ih]

/-- A non-done parent has a non-terminal status. -/
theorem getActivityStatus_not_terminal (a : ToolActivity)
    (h : ¬(getActivityStatus a = .completed ∨ getActivityStatus a = .error)) :
    a.done = false := by
  by_cases hd : a.done
  · exfalso
    apply h
    cases hi : a.isError
    · exact Or.inl (by simp [getActivityStatus, hd, hi])
    · exact Or.inr (by simp [getActivityStatus, hd, hi])
  · simpa using hd

/-! ## Claim theorems -/

/-- C1 counterexample: a group whose parent is `running` (not done) and
whose two children are both `done` without errors has derived status
`running`, not `completed` as the claim states. -/
theorem derivedStatus_counterexample :
    getActivityStatus
      { toolUseId := "t1", toolName := "Task", done := false,
        phase := .running } = .running ∧
    derivedStatus
      { toolUseId := "t1", toolName := "Task", done := false,
        phase := .running }
      [{ toolUseId := "c1", toolName := "Edit", parentToolUseId := some "t1",
         done := true, isError := false },
       { toolUseId := "c2", toolName := "Read", parentToolUseId := some "t1",
         done := true, isError := false }] = .running ∧
    ActivityStatus.running ≠ ActivityStatus.completed := by decide

/-- C1 (amended): the parent's terminal status is authoritative; otherwise,
with a nonempty fully-done child list, any child error makes the group
`error`, but with no child error the group keeps the parent's own
non-terminal status (completion is not promoted from the children alone);
in every remaining case the group's status equals the parent's own
status. -/
theorem derivedStatus_amended (parent : ToolActivity)
    (children : List ToolActivity) :
    ((getActivityStatus parent = .completed ∨ getActivityStatus parent = .error) →
      derivedStatus parent children = getActivityStatus parent) ∧
    (¬(getActivityStatus parent = .completed ∨ getActivityStatus parent = .error) →
      children ≠ [] → children.all (·.done) = true →
      ((children.any (·.isError) = true →
          derivedStatus parent children = .error) ∧
       (children.any (·.isError) = false →
          derivedStatus parent children = getActivityStatus parent))) ∧
    (¬(getActivityStatus parent = .completed ∨ getActivityStatus parent = .error) →
      (children = [] ∨ children.all (·.done) = false) →
      derivedStatus parent children = getActivityStatus parent) := by
  refine ⟨fun ht => ?_, fun ht hne hdone => ⟨fun herr => ?_, fun herr => ?_⟩,
    fun ht hrest => ?_⟩
  · simp [derivedStatus, ht]
  · have hlen : 0 < children.length := List.length_pos.mpr hne
    simp [derivedStatus, ht, hlen, hdone, herr]
  · have hlen : 0 < children.length := List.length_pos.mpr hne
    have hpd : parent.done = false := getActivityStatus_not_terminal parent ht
    simp [derivedStatus, ht, hlen, hdone, herr, hpd]
  · rcases hrest with rfl | hnd
    · simp [derivedStatus, ht]
    · simp [derivedStatus, ht, hnd]

/-- C1 amended witness: a running parent with one errored done child gives
`error`; with one clean done child it stays `running`. -/
theorem derivedStatus_amended_witness :
    derivedStatus
      { toolUseId := "t1", toolName := "Task", done := false,
        phase := .running }
      [{ toolUseId := "c1", toolName := "Bash", done := true,
         isError := true }] = .error ∧
    derivedStatus
      { toolUseId := "t1", toolName := "Task", done := false,
        phase := .running }
      [{ toolUseId := "c1", toolName := "Bash", done := true,
         isError := false }] = .running := by
  constructor
  · exact ((derivedStatus_amended
      { toolUseId := "t1", toolName := "Task", done := false, phase := .running }
      [{ toolUseId := "c1", toolName := "Bash", done := true,
         isError := true }]).2.1 (by decide) (by decide) (by decide)).1 (by decide)
  · exact (((derivedStatus_amended
      { toolUseId := "t1", toolName := "Task", done := false, phase := .running }
      [{ toolUseId := "c1", toolName := "Bash", done := true,
         isError := false }]).2.1 (by decide) (by decide) (by decide)).2
      (by decide)).trans (by decide)

/-- C2: an absent transcript yields the empty message list, and any parse
failure on any (non-blank) line of the transcript discards the entire
message history, yielding the empty list. -/
theorem getAgentSessionMessages_corrupt {M : Type}
    (parseMessage : List Char → Option M) :
    getAgentSessionMessages parseMessage (none : Option (List Char)) = [] ∧
    (∀ raw : List Char,
      (∃ l ∈ (splitNl raw).filter isVisibleLine, parseMessage l = none) →
      getAgentSessionMessages parseMessage (some raw) = []) := by
  constructor
  · rfl
  · intro raw hbad
    simp only [getAgentSessionMessages]
    rw [mapParse_eq_none_of_mem _ _ hbad]

/-- C2 witness: a two-line transcript whose second line does not parse
yields `[]`, although the first line parses. -/
theorem getAgentSessionMessages_corrupt_witness :
    getAgentSessionMessages
      (fun l => if l = ['a'] then some 0 else (none : Option Nat))
      (some "a\nb".toList) = [] :=
  (getAgentSessionMessages_corrupt
    (fun l => if l = ['a'] then some 0 else (none : Option Nat))).2
    "a\nb".toList ⟨['b'], by decide, by decide⟩

/-- C4: the context usage classification is total over its three inputs:
`isCompacting` overrides everything; absent or non-positive `inputTokens`
gives `noData`; with positive tokens, a present window, and a positive
compaction threshold `floor(contextWindow * 0.775)`, the state is `warning`
exactly when `inputTokens / compactThreshold ≥ 4/5` and `normal`
otherwise (the rational comparison is also restated over naturals). -/
theorem classifyContextUsage_spec (inputTokens : Option Int)
    (contextWindow : Option Nat) (isCompacting : Bool) :
    (isCompacting = true →
      classifyContextUsage inputTokens contextWindow isCompacting = .compacting) ∧
    (isCompacting = false →
      (inputTokens = none ∨ ∃ i, inputTokens = some i ∧ i ≤ 0) →
      classifyContextUsage inputTokens contextWindow isCompacting = .noData) ∧
    (∀ i w, isCompacting = false → inputTokens = some i → 0 < i →
      contextWindow = some w → 0 < compactThresholdOf w →
      ((classifyContextUsage inputTokens contextWindow isCompacting = .warning ↔
          (4 : ℚ) / 5 ≤ (i : ℚ) / (compactThresholdOf w : ℚ)) ∧
       (classifyContextUsage inputTokens contextWindow isCompacting = .normal ↔
          ¬ (4 : ℚ) / 5 ≤ (i : ℚ) / (compactThresholdOf w : ℚ)) ∧
       ((4 : ℚ) / 5 ≤ (i : ℚ) / (compactThresholdOf w : ℚ) ↔
          4 * compactThresholdOf w ≤ 5 * i.toNat))) := by
  refine ⟨fun hc => ?_, fun hc hno => ?_, fun i w hc hi hpos hw ht => ?_⟩
  · simp [classifyContextUsage, hc]
  · rcases hno with rfl | ⟨i, rfl, hi⟩
    · simp [classifyContextUsage, hc]
    · simp [classifyContextUsage, hc, hi]
  · subst hc hi hw
    have hw0 : w ≠ 0 := by
      intro h
      rw [h] at ht
      simp [compactThresholdOf] at ht
    have htQ : (0 : ℚ) < (compactThresholdOf w : ℚ) := by exact_mod_cast ht
    have hcast : (i : ℚ) = ((i.toNat : ℕ) : ℚ) := by
      exact_mod_cast (Int.toNat_of_nonneg hpos.le).symm
    have hratNat : ((4 : ℚ) / 5 ≤ (i : ℚ) / (compactThresholdOf w : ℚ) ↔
        4 * compactThresholdOf w ≤ 5 * i.toNat) := by
      rw [div_le_div_iff₀ (by norm_num) htQ, hcast,
        mul_comm ((i.toNat : ℕ) : ℚ) 5]
      exact_mod_cast Iff.rfl
    have hclass : classifyContextUsage (some i) (some w) false =
        if (4 : ℚ) / 5 ≤ (i : ℚ) / (compactThresholdOf w : ℚ) then
          ContextUsageState.warning
        else ContextUsageState.normal := by
      have h1 : ¬ i ≤ 0 := not_le.mpr hpos
      simp [classifyContextUsage, h1, hw0, ht.ne']
    rw [hclass]
    refine ⟨?_, ?_, hratNat⟩ <;>
      by_cases hr : (4 : ℚ) / 5 ≤ (i : ℚ) / (compactThresholdOf w : ℚ) <;>
        simp [hr]

/-- C4 witness: the spec's worked examples at `contextWindow = 100000`. -/
theorem classifyContextUsage_spec_witness :
    classifyContextUsage (some 62000) (some 100000) false = .warning ∧
    classifyContextUsage (some 50000) (some 100000) false = .normal ∧
    classifyContextUsage none (some 100000) false = .noData := by
  have h62 := (classifyContextUsage_spec (some 62000) (some 100000) false).2.2
    62000 100000 rfl rfl (by decide) rfl (by decide)
  have h50 := (classifyContextUsage_spec (some 50000) (some 100000) false).2.2
    50000 100000 rfl rfl (by decide) rfl (by decide)
  refine ⟨h62.1.mpr (h62.2.2.mpr (by decide)), h50.2.1.mpr ?_,
    (classifyContextUsage_spec none (some 100000) false).2.1 rfl (Or.inl rfl)⟩
  intro hle
  exact absurd (h50.2.2.mp hle) (by decide)

/-- C9 counterexample: replacing the single line `a` by the single line `b`
produces `additions = 1, deletions = 1`, while the claimed clamped
line-count delta is `0` on both sides. -/
theorem computeDiffStats_counterexample :
    computeDiffStats "Edit" { old_string := some "a", new_string := some "b" } =
      some { additions := 1, deletions := 1 } ∧
    max 0 ((lineCount "b" : Int) - (lineCount "a" : Int)) = 0 ∧
    max 0 ((lineCount "a" : Int) - (lineCount "b" : Int)) = 0 := by decide

/-- C9 (amended): for an Edit activity whose blocks are not both empty,
`additions = max(0, lines(new) - lines(old) + 1)` and
`deletions = max(0, lines(old) - lines(new) + 1)` — the line-count delta
plus one, clamped at zero. -/
theorem computeDiffStats_amended (old_string new_string : Option String)
    (h : ¬(old_string.getD "" = "" ∧ new_string.getD "" = "")) :
    computeDiffStats "Edit"
        { old_string := old_string, new_string := new_string } =
      some { additions := max 0 ((lineCount (new_string.getD "") : Int) -
                 (lineCount (old_string.getD "") : Int) + 1),
             deletions := max 0 ((lineCount (old_string.getD "") : Int) -
                 (lineCount (new_string.getD "") : Int) + 1) } := by
  simp only [computeDiffStats, if_pos rfl, if_neg h]
  have hn : ∀ s : String, ((splitNl s.toList).length : Int) = (lineCount s : Int) := by
    intro s
    rw [splitNl_length]
    rfl
  rw [hn, hn]
  simp

/-- C9 amended witness: deleting two of three lines gives `+0 / -3`
(the delta `-2` plus one on the deletion side, clamped on the addition
side). -/
theorem computeDiffStats_amended_witness :
    computeDiffStats "Edit"
        { old_string := some "a\nb\nc", new_string := some "x" } =
      some { additions := 0, deletions := 3 } :=
  (computeDiffStats_amended (some "a\nb\nc") (some "x") (by decide)).trans
    (by decide)

/-- C10: `createAgentSession` falls back to the default title both for an
absent and for an empty `title` argument, uses a non-empty title verbatim,
and returns a record with `createdAt = updatedAt`. -/
theorem createAgentSession_defaults (index : AgentSessionsIndex)
    (title channelId workspaceId : Option String) (now : Nat)
    (newId : String) :
    ((title = none ∨ title = some "") →
      (createAgentSession index title channelId workspaceId now newId).1.title =
        defaultAgentSessionTitle) ∧
    (∀ t, title = some t → t ≠ "" →
      (createAgentSession index title channelId workspaceId now newId).1.title = t) ∧
    (createAgentSession index title channelId workspaceId now newId).1.createdAt =
      (createAgentSession index title channelId workspaceId now newId).1.updatedAt := by
  refine ⟨fun hdef => ?_, fun t ht hne => ?_, by simp [createAgentSession]⟩
  · rcases hdef with rfl | rfl <;> simp [createAgentSession]
  · subst ht
    simp [createAgentSession, hne]

/-- C10 witness: the empty title gets the default, `"我的会话"` is kept
verbatim, and both records have `createdAt = updatedAt`. -/
theorem createAgentSession_defaults_witness :
    (createAgentSession { version := 1, sessions := [] } (some "")
        none none 7 "id1").1.title = defaultAgentSessionTitle ∧
    (createAgentSession { version := 1, sessions := [] } (some "我的会话")
        none none 7 "id2").1.title = "我的会话" ∧
    (createAgentSession { version := 1, sessions := [] } none
        none none 7 "id3").1.createdAt =
      (createAgentSession { version := 1, sessions := [] } none
        none none 7 "id3").1.updatedAt :=
  ⟨(createAgentSession_defaults { version := 1, sessions := [] } (some "")
      none none 7 "id1").1 (Or.inr rfl),
   (createAgentSession_defaults { version := 1, sessions := [] } (some "我的会话")
      none none 7 "id2").2.1 "我的会话" rfl (by decide),
   (createAgentSession_defaults { version := 1, sessions := [] } none
      none none 7 "id3").2.2⟩

/-- C7: updating an unknown session id fails with the not-found error and
leaves the index unchanged; updating a known id (found at position `i`)
replaces exactly that entry by the existing record with the supplied
allowed fields merged and `updatedAt` refreshed, keeping `id` and
`createdAt` and every other index position unchanged. -/
theorem updateAgentSessionMeta_spec (index : List AgentSessionMeta)
    (id : String) (u : AgentSessionUpdates) (now : Nat) :
    ((∀ s ∈ index, s.id ≠ id) →
      updateAgentSessionMeta index id u now =
        .error ("Agent 会话不存在: " ++ id) ∧
      applyUpdateAgentSessionMeta index id u now = index) ∧
    (∀ i, ∀ hi : i < index.length,
      index.findIdx? (fun s => s.id = id) = some i →
      updateAgentSessionMeta index id u now =
        .ok (index.set i (mergeSessionMeta index[i] u now),
             mergeSessionMeta index[i] u now) ∧
      (mergeSessionMeta index[i] u now).id = index[i].id ∧
      (mergeSessionMeta index[i] u now).createdAt = index[i].createdAt ∧
      (mergeSessionMeta index[i] u now).updatedAt = now ∧
      (mergeSessionMeta index[i] u now).title = u.title.getD index[i].title ∧
      (mergeSessionMeta index[i] u now).channelId =
        u.channelId.getD index[i].channelId ∧
      (mergeSessionMeta index[i] u now).sdkSessionId =
        u.sdkSessionId.getD index[i].sdkSessionId ∧
      (mergeSessionMeta index[i] u now).workspaceId =
        u.workspaceId.getD index[i].workspaceId ∧
      (applyUpdateAgentSessionMeta index id u now).length = index.length ∧
      (∀ j, j ≠ i →
        (applyUpdateAgentSessionMeta index id u now)[j]? = index[j]?)) := by
  constructor
  · intro hnone
    have hfind : index.findIdx? (fun s => s.id = id) = none := by
      rw [List.findIdx?_eq_none_iff]
      intro x hx
      simpa using hnone x hx
    have herr : updateAgentSessionMeta index id u now =
        .error ("Agent 会话不存在: " ++ id) := by
      unfold updateAgentSessionMeta
      split
      · rfl
      · rename_i i h
        rw [hfind] at h
        exact absurd h (by simp)
    exact ⟨herr, by simp [applyUpdateAgentSessionMeta, herr]⟩
  · intro i hi hfind
    have hok : updateAgentSessionMeta index id u now =
        .ok (index.set i (mergeSessionMeta index[i] u now),
             mergeSessionMeta index[i] u now) := by
      unfold updateAgentSessionMeta
      split
      · rename_i h
        rw [hfind] at h
        exact absurd h (by simp)
      · rename_i i' h
        rw [hfind] at h
        cases h
        rfl
    have happ : applyUpdateAgentSessionMeta index id u now =
        index.set i (mergeSessionMeta index[i] u now) := by
      simp [applyUpdateAgentSessionMeta, hok]
    refine ⟨hok, rfl, rfl, rfl, rfl, rfl, rfl, rfl, by simp [happ], ?_⟩
    intro j hj
    rw [happ, List.getElem?_set_ne (fun h => hj h.symm)]

/-- C7 witness: updating the second of two sessions replaces only it,
keeps its `id`/`createdAt`, refreshes `updatedAt`, and leaves the first
session untouched; updating an unknown id errors and keeps the index. -/
theorem updateAgentSessionMeta_spec_witness :
    updateAgentSessionMeta
        [{ id := "a", title := "A", createdAt := 1, updatedAt := 4 },
         { id := "b", title := "B", createdAt := 2, updatedAt := 3 }]
        "b" { title := some "B2" } 9 =
      .ok ([{ id := "a", title := "A", createdAt := 1, updatedAt := 4 },
            { id := "b", title := "B2", createdAt := 2, updatedAt := 9 }],
           { id := "b", title := "B2", createdAt := 2, updatedAt := 9 }) ∧
    applyUpdateAgentSessionMeta
        [{ id := "a", title := "A", createdAt := 1, updatedAt := 4 }]
        "zzz" { title := some "X" } 9 =
      [{ id := "a", title := "A", createdAt := 1, updatedAt := 4 }] := by
  constructor
  · have h := (updateAgentSessionMeta_spec
      [{ id := "a", title := "A", createdAt := 1, updatedAt := 4 },
       { id := "b", title := "B", createdAt := 2, updatedAt := 3 }]
      "b" { title := some "B2" } 9).2 1 (by decide) (by decide)
    rw [h.1]
    rfl
  · exact ((updateAgentSessionMeta_spec
      [{ id := "a", title := "A", createdAt := 1, updatedAt := 4 }]
      "zzz" { title := some "X" } 9).1 (by decide)).2

/-- C8: `listAgentSessions` always returns a permutation of the index's
sessions, sorted by `updatedAt` descending, and returns the empty sequence
(without throwing) when the index file is absent or unparseable. -/
theorem listAgentSessions_spec (parseIndex : String → Option AgentSessionsIndex)
    (file : Option String) :
    (listAgentSessions parseIndex file).Perm
      (readIndex parseIndex file).sessions ∧
    List.Pairwise (fun a b => b.updatedAt ≤ a.updatedAt)
      (listAgentSessions parseIndex file) ∧
    (file = none → listAgentSessions parseIndex file = []) ∧
    (∀ raw, file = some raw → parseIndex raw = none →
      listAgentSessions parseIndex file = []) := by
  refine ⟨List.mergeSort_perm _ _, ?_, fun hf => ?_, fun raw hf hp => ?_⟩
  · have := @List.sorted_mergeSort AgentSessionMeta sessionDescLe
      (fun a b c hab hbc => by
        simp only [sessionDescLe, decide_eq_true_eq] at hab hbc ⊢
        omega)
      (fun a b => by
        simp only [sessionDescLe]
        have := Nat.le_total b.updatedAt a.updatedAt
        rcases this with h | h <;> simp [h])
      (readIndex parseIndex file).sessions
    exact this.imp (fun h => by simpa [sessionDescLe] using h)
  · subst hf
    simp [listAgentSessions, readIndex, List.mergeSort_nil]
  · subst hf
    simp [listAgentSessions, readIndex, hp, List.mergeSort_nil]

theorem foldl_appendAgentMessage_some {M : Type} (strg : M → List Char)
    (msgs : List M) (acc : List Char) :
    msgs.foldl (appendAgentMessage strg) (some acc) =
      some (acc ++ encodeTranscript strg msgs) := by
  induction msgs generalizing acc with
  | nil => simp [encodeTranscript]
  | cons m t ih =>
    simp only [List.foldl_cons, appendAgentMessage, Option.getD_some]
    rw [ih]
    simp [encodeTranscript, List.append_assoc]

theorem splitNl_encodeTranscript {M : Type} (strg : M → List Char)
    (msgs : List M) (hnl : ∀ m, '\n' ∉ strg m) :
    splitNl (encodeTranscript strg msgs) = msgs.map strg ++ [[]] := by
  induction msgs with
  | nil => simp [encodeTranscript, splitNl]
  | cons m t ih =>
    have hstep : encodeTranscript strg (m :: t) =
        strg m ++ '\n' :: encodeTranscript strg t := by
      simp [encodeTranscript, List.append_assoc]
    rw [hstep, splitNl_append_newline _ _ (hnl m), ih]
    simp

/-- C6: appending each message of a finite sequence in order to a fresh
transcript and reading back returns exactly the appended messages, in
append order, each exactly once — provided serialization round-trips,
serialized lines contain no newline, and serialized lines are not
blank. -/
theorem appendMessage_getMessages_round_trip {M : Type}
    (stringifyMessage : M → List Char) (parseMessage : List Char → Option M)
    (msgs : List M)
    (hparse : ∀ m, parseMessage (stringifyMessage m) = some m)
    (hnl : ∀ m, '\n' ∉ stringifyMessage m)
    (hvis : ∀ m, isVisibleLine (stringifyMessage m) = true) :
    getAgentSessionMessages parseMessage
      (msgs.foldl (appendAgentMessage stringifyMessage) none) = msgs := by
  cases msgs with
  | nil => rfl
  | cons m t =>
    have hfold : (m :: t).foldl (appendAgentMessage stringifyMessage) none =
        some (encodeTranscript stringifyMessage (m :: t)) := by
      simp only [List.foldl_cons, appendAgentMessage, Option.getD_none]
      rw [foldl_appendAgentMessage_some]
      simp [encodeTranscript]
    rw [hfold]
    simp only [getAgentSessionMessages]
    rw [splitNl_encodeTranscript _ _ hnl, List.filter_append,
      List.filter_eq_self.mpr (fun a ha => by
        rcases List.mem_map.mp ha with ⟨x, _, rfl⟩
        exact hvis x),
      show ([[]] : List (List Char)).filter isVisibleLine = [] from rfl,
      List.append_nil, mapParse_map _ _ _ hparse]

/-- C6 witness: the round-trip at a concrete three-message transcript. -/
theorem appendMessage_getMessages_round_trip_witness :
    getAgentSessionMessages
      (fun l => if l = ['t'] then some true
        else if l = ['f'] then some false else none)
      ([true, false, true].foldl
        (appendAgentMessage (fun b => if b then ['t'] else ['f'])) none) =
      [true, false, true] :=
  appendMessage_getMessages_round_trip
    (fun b => if b then ['t'] else ['f'])
    (fun l => if l = ['t'] then some true
      else if l = ['f'] then some false else none)
    [true, false, true]
    (fun m => by cases m <;> decide)
    (fun m => by cases m <;> decide)
    (fun m => by cases m <;> decide)

/-- C8 witness: an unparseable index file lists no sessions. -/
theorem listAgentSessions_spec_witness :
    listAgentSessions (fun _ => none) (some "not json") = [] :=
  (listAgentSessions_spec (fun _ => none) (some "not json")).2.2.2
    "not json" rfl rfl

theorem eventTimesOf_subset (c : ChangeCat) (evs : List (Nat × List Char)) :
    ∀ x ∈ eventTimesOf c evs, x ∈ evs.map (fun p => p.1) := by
  intro x hx
  simp only [eventTimesOf, List.mem_map, List.mem_filter] at hx
  rcases hx with ⟨p, ⟨hp, _⟩, rfl⟩
  exact List.mem_map.mpr ⟨p, hp, rfl⟩

theorem debounceOne_due (d : Nat) (ts : List Nat) (h : ∀ t ∈ ts, d ≤ t) :
    debounceOne (some d) ts = d :: debounceOne none ts := by
  cases ts with
  | nil => rfl
  | cons t rest => simp only [debounceOne, if_pos (h t (by simp))]

theorem fireOne_files_filter_cap (pend : Option Nat) (t : Nat) :
    ((fireOne pend ChangeCat.files false t).2).filter
      (fun n => decide (n.2 = ChangeCat.capabilities)) = [] := by
  rcases pend with _ | d
  · simp [fireOne]
  · by_cases h : d ≤ t <;> simp [fireOne, h]

theorem fireOne_cap_filter_files (pend : Option Nat) (t : Nat) :
    ((fireOne pend ChangeCat.capabilities false t).2).filter
      (fun n => decide (n.2 = ChangeCat.files)) = [] := by
  rcases pend with _ | d
  · simp [fireOne]
  · by_cases h : d ≤ t <;> simp [fireOne, h]

/-- The capabilities notifications of a raw-change-only trace are exactly
the single-category debounce of the capability event times. -/
theorem runWatcher_filter_cap (evs : List (Nat × List Char)) :
    ∀ capT fileT : Option Nat,
    List.Pairwise (fun a b => a ≤ b) (evs.map (fun p => p.1)) →
    (runWatcher
        { watching := true, winDestroyed := false,
          capabilitiesTimer := capT, filesTimer := fileT }
        (evs.map (fun p => (p.1, WatchEvent.change p.2)))).filter
      (fun n => decide (n.2 = ChangeCat.capabilities)) =
    (debounceOne capT (eventTimesOf ChangeCat.capabilities evs)).map
      (fun d => (d, ChangeCat.capabilities)) := by
  induction evs with
  | nil =>
    intro capT fileT _
    rcases capT with _ | d <;> rcases fileT with _ | e <;>
      simp [runWatcher, flushRemaining, flushOne, debounceOne, eventTimesOf]
  | cons p rest ih =>
    obtain ⟨t, f⟩ := p
    intro capT fileT hsort
    rw [List.map_cons, List.pairwise_cons] at hsort
    obtain ⟨hle, hsort'⟩ := hsort
    have hsub : ∀ x ∈ eventTimesOf ChangeCat.capabilities rest, t ≤ x :=
      fun x hx => hle x (eventTimesOf_subset _ _ x hx)
    rw [List.map_cons]
    simp only [runWatcher, fireDue, List.filter_append, fireOne_files_filter_cap,
      List.append_nil]
    by_cases hfe : f.isEmpty
    · have hev : eventTimesOf ChangeCat.capabilities ((t, f) :: rest) =
          eventTimesOf ChangeCat.capabilities rest := by
        simp [eventTimesOf, hfe]
      rcases capT with _ | d
      · simp only [fireOne, handleEvent, Bool.not_true, Bool.false_eq_true,
          if_false, hfe, Bool.true_or, if_true, hev]
        simpa using ih none (fireOne fileT ChangeCat.files false t).1 hsort'
      · by_cases hd : d ≤ t
        · simp only [fireOne, if_pos hd, handleEvent, Bool.not_true,
            Bool.false_eq_true, if_false, hfe, Bool.true_or, if_true, hev]
          rw [debounceOne_due d _ (fun x hx => le_trans hd (hsub x hx))]
          simpa using congrArg (List.cons (d, ChangeCat.capabilities))
            (ih none (fireOne fileT ChangeCat.files false t).1 hsort')
        · simp only [fireOne, if_neg hd, handleEvent, Bool.not_true,
            Bool.false_eq_true, if_false, hfe, Bool.true_or, if_true, hev]
          simpa using ih (some d) (fireOne fileT ChangeCat.files false t).1 hsort'
    · by_cases hcap : isCapabilitiesChange f
      · have hev : eventTimesOf ChangeCat.capabilities ((t, f) :: rest) =
            t :: eventTimesOf ChangeCat.capabilities rest := by
          simp [eventTimesOf, hfe, classifyChange, hcap]
        rcases capT with _ | d
        · simp only [fireOne, handleEvent, Bool.not_true, Bool.false_eq_true,
            if_false, hfe, Bool.or_false, Bool.false_eq_true, if_neg hfe,
            if_pos hcap, hev, debounceOne]
          simpa using ih (some (t + DEBOUNCE_MS))
            (fireOne fileT ChangeCat.files false t).1 hsort'
        · by_cases hd : d ≤ t
          · simp only [fireOne, if_pos hd, handleEvent, Bool.not_true,
              Bool.false_eq_true, if_false, Bool.or_false, if_neg hfe,
              if_pos hcap, hev, debounceOne, if_pos hd]
            simpa using congrArg (List.cons (d, ChangeCat.capabilities))
              (ih (some (t + DEBOUNCE_MS))
                (fireOne fileT ChangeCat.files false t).1 hsort')
          · simp only [fireOne, if_neg hd, handleEvent, Bool.not_true,
              Bool.false_eq_true, if_false, Bool.or_false, if_neg hfe,
              if_pos hcap, hev, debounceOne, if_neg hd]
            simpa using ih (some (t + DEBOUNCE_MS))
              (fireOne fileT ChangeCat.files false t).1 hsort'
      · have hev : eventTimesOf ChangeCat.capabilities ((t, f) :: rest) =
            eventTimesOf ChangeCat.capabilities rest := by
          simp [eventTimesOf, hfe, classifyChange, hcap]
        rcases capT with _ | d
        · simp only [fireOne, handleEvent, Bool.not_true, Bool.false_eq_true,
            if_false, Bool.or_false, if_neg hfe, if_neg hcap, hev]
          simpa using ih none (some (t + DEBOUNCE_MS)) hsort'
        · by_cases hd : d ≤ t
          · simp only [fireOne, if_pos hd, handleEvent, Bool.not_true,
              Bool.false_eq_true, if_false, Bool.or_false, if_neg hfe,
              if_neg hcap, hev]
            rw [debounceOne_due d _ (fun x hx => le_trans hd (hsub x hx))]
            simpa using congrArg (List.cons (d, ChangeCat.capabilities))
              (ih none (some (t + DEBOUNCE_MS)) hsort')
          · simp only [fireOne, if_neg hd, handleEvent, Bool.not_true,
              Bool.false_eq_true, if_false, Bool.or_false, if_neg hfe,
              if_neg hcap, hev]
            simpa using ih (some d) (some (t + DEBOUNCE_MS)) hsort'

/-- The generic-files notifications of a raw-change-only trace are exactly
the single-category debounce of the generic event times. -/
theorem runWatcher_filter_files (evs : List (Nat × List Char)) :
    ∀ capT fileT : Option Nat,
    List.Pairwise (fun a b => a ≤ b) (evs.map (fun p => p.1)) →
    (runWatcher
        { watching := true, winDestroyed := false,
          capabilitiesTimer := capT, filesTimer := fileT }
        (evs.map (fun p => (p.1, WatchEvent.change p.2)))).filter
      (fun n => decide (n.2 = ChangeCat.files)) =
    (debounceOne fileT (eventTimesOf ChangeCat.files evs)).map
      (fun d => (d, ChangeCat.files)) := by
  induction evs with
  | nil =>
    intro capT fileT _
    rcases capT with _ | d <;> rcases fileT with _ | e <;>
      simp [runWatcher, flushRemaining, flushOne, debounceOne, eventTimesOf]
  | cons p rest ih =>
    obtain ⟨t, f⟩ := p
    intro capT fileT hsort
    rw [List.map_cons, List.pairwise_cons] at hsort
    obtain ⟨hle, hsort'⟩ := hsort
    have hsub : ∀ x ∈ eventTimesOf ChangeCat.files rest, t ≤ x :=
      fun x hx => hle x (eventTimesOf_subset _ _ x hx)
    rw [List.map_cons]
    simp only [runWatcher, fireDue, List.filter_append, fireOne_cap_filter_files,
      List.nil_append]
    by_cases hfe : f.isEmpty
    · have hev : eventTimesOf ChangeCat.files ((t, f) :: rest) =
          eventTimesOf ChangeCat.files rest := by
        simp [eventTimesOf, hfe]
      rcases fileT with _ | d
      · simp only [fireOne, handleEvent, Bool.not_true, Bool.false_eq_true,
          if_false, hfe, Bool.true_or, if_true, hev]
        simpa using ih (fireOne capT ChangeCat.capabilities false t).1 none hsort'
      · by_cases hd : d ≤ t
        · simp only [fireOne, if_pos hd, handleEvent, Bool.not_true,
            Bool.false_eq_true, if_false, hfe, Bool.true_or, if_true, hev]
          rw [debounceOne_due d _ (fun x hx => le_trans hd (hsub x hx))]
          simpa using congrArg (List.cons (d, ChangeCat.files))
            (ih (fireOne capT ChangeCat.capabilities false t).1 none hsort')
        · simp only [fireOne, if_neg hd, handleEvent, Bool.not_true,
            Bool.false_eq_true, if_false, hfe, Bool.true_or, if_true, hev]
          simpa using ih (fireOne capT ChangeCat.capabilities false t).1 (some d)
            hsort'
    · by_cases hcap : isCapabilitiesChange f
      · have hev : eventTimesOf ChangeCat.files ((t, f) :: rest) =
            eventTimesOf ChangeCat.files rest := by
          simp [eventTimesOf, hfe, classifyChange, hcap]
        rcases fileT with _ | d
        · simp only [fireOne, handleEvent, Bool.not_true, Bool.false_eq_true,
            if_false, Bool.or_false, if_neg hfe, if_pos hcap, hev]
          simpa using ih (some (t + DEBOUNCE_MS)) none hsort'
        · by_cases hd : d ≤ t
          · simp only [fireOne, if_pos hd, handleEvent, Bool.not_true,
              Bool.false_eq_true, if_false, Bool.or_false, if_neg hfe,
              if_pos hcap, hev]
            rw [debounceOne_due d _ (fun x hx => le_trans hd (hsub x hx))]
            simpa using congrArg (List.cons (d, ChangeCat.files))
              (ih (some (t + DEBOUNCE_MS)) none hsort')
          · simp only [fireOne, if_neg hd, handleEvent, Bool.not_true,
              Bool.false_eq_true, if_false, Bool.or_false, if_neg hfe,
              if_pos hcap, hev]
            simpa using ih (some (t + DEBOUNCE_MS)) (some d) hsort'
      · have hev : eventTimesOf ChangeCat.files ((t, f) :: rest) =
            t :: eventTimesOf ChangeCat.files rest := by
          simp [eventTimesOf, hfe, classifyChange, hcap]
        rcases fileT with _ | d
        · simp only [fireOne, handleEvent, Bool.not_true, Bool.false_eq_true,
            if_false, Bool.or_false, if_neg hfe, if_neg hcap, hev, debounceOne]
          simpa using ih (fireOne capT ChangeCat.capabilities false t).1
            (some (t + DEBOUNCE_MS)) hsort'
        · by_cases hd : d ≤ t
          · simp only [fireOne, if_pos hd, handleEvent, Bool.not_true,
              Bool.false_eq_true, if_false, Bool.or_false, if_neg hfe,
              if_neg hcap, hev, debounceOne, if_pos hd]
            simpa using congrArg (List.cons (d, ChangeCat.files))
              (ih (fireOne capT ChangeCat.capabilities false t).1
                (some (t + DEBOUNCE_MS)) hsort')
          · simp only [fireOne, if_neg hd, handleEvent, Bool.not_true,
              Bool.false_eq_true, if_false, Bool.or_false, if_neg hfe,
              if_neg hcap, hev, debounceOne, if_neg hd]
            simpa using ih (fireOne capT ChangeCat.capabilities false t).1
              (some (t + DEBOUNCE_MS)) hsort'

theorem debounceOne_none_eq_lastOfBursts (ts : List Nat) :
    debounceOne none ts = (lastOfBursts ts).map (fun t => t + DEBOUNCE_MS) := by
  induction ts with
  | nil => rfl
  | cons t rest ih =>
    cases rest with
    | nil => simp [debounceOne, lastOfBursts]
    | cons u ts' =>
      by_cases h : t + DEBOUNCE_MS ≤ u
      · simp only [debounceOne, if_pos h, lastOfBursts, List.map_cons]
        rw [show debounceOne (some (u + DEBOUNCE_MS)) ts' =
            debounceOne none (u :: ts') from rfl, ih]
      · simp only [debounceOne, if_neg h, lastOfBursts]
        rw [show debounceOne (some (u + DEBOUNCE_MS)) ts' =
            debounceOne none (u :: ts') from rfl, ih]

/-- C5: over any time-ordered sequence of raw change events (with a live
window and an open watcher), the notifications of each category are
exactly one notification per burst of that category — the last event of
each burst, delivered `DEBOUNCE_MS` after it, an event being last in its
burst when no later same-category event arrives within the window — and
the two categories are debounced independently (each category's output
depends only on that category's event times). -/
theorem workspaceWatcher_debounce (evs : List (Nat × List Char))
    (hsort : List.Pairwise (fun a b => a ≤ b) (evs.map (fun p => p.1))) :
    ∀ c : ChangeCat,
    (runWatcher initialWatcherState
        (evs.map (fun p => (p.1, WatchEvent.change p.2)))).filter
      (fun n => decide (n.2 = c)) =
    (lastOfBursts (eventTimesOf c evs)).map (fun t => (t + DEBOUNCE_MS, c)) := by
  intro c
  cases c
  · unfold initialWatcherState
    rw [runWatcher_filter_cap evs none none hsort,
      debounceOne_none_eq_lastOfBursts, List.map_map]
    rfl
  · unfold initialWatcherState
    rw [runWatcher_filter_files evs none none hsort,
      debounceOne_none_eq_lastOfBursts, List.map_map]
    rfl

/-- C5 witness: five rapid changes to `w/skills/foo/SKILL.md` (t = 0, 100,
200, 300, 400) produce exactly one capability notification, at t = 900,
and one unrelated change at t = 250 produces exactly one independent
files notification, at t = 750. -/
theorem workspaceWatcher_debounce_witness :
    (runWatcher initialWatcherState
        ([((0 : Nat), "w/skills/foo/SKILL.md".toList),
          (100, "w/skills/foo/SKILL.md".toList),
          (200, "w/skills/foo/SKILL.md".toList),
          (250, "w/notes.txt".toList),
          (300, "w/skills/foo/SKILL.md".toList),
          (400, "w/skills/foo/SKILL.md".toList)].map
          (fun p => (p.1, WatchEvent.change p.2)))).filter
      (fun n => decide (n.2 = ChangeCat.capabilities)) =
      [(900, ChangeCat.capabilities)] ∧
    (runWatcher initialWatcherState
        ([((0 : Nat), "w/skills/foo/SKILL.md".toList),
          (100, "w/skills/foo/SKILL.md".toList),
          (200, "w/skills/foo/SKILL.md".toList),
          (250, "w/notes.txt".toList),
          (300, "w/skills/foo/SKILL.md".toList),
          (400, "w/skills/foo/SKILL.md".toList)].map
          (fun p => (p.1, WatchEvent.change p.2)))).filter
      (fun n => decide (n.2 = ChangeCat.files)) =
      [(750, ChangeCat.files)] := by
  have h := workspaceWatcher_debounce
    [((0 : Nat), "w/skills/foo/SKILL.md".toList),
     (100, "w/skills/foo/SKILL.md".toList),
     (200, "w/skills/foo/SKILL.md".toList),
     (250, "w/notes.txt".toList),
     (300, "w/skills/foo/SKILL.md".toList),
     (400, "w/skills/foo/SKILL.md".toList)] (by decide)
  exact ⟨(h .capabilities).trans (by decide), (h .files).trans (by decide)⟩

/-- C3 (code evaluated at the failing input): one capability change at
t = 0 followed by `stopWorkspaceWatcher` at t = 100 still delivers the
pending debounced capability notification at t = 500, after the stop —
`stopWorkspaceWatcher` closes the `FSWatcher` but does not cancel the
pending debounce timers. -/
theorem stopWatcher_pending_timer_still_fires :
    runWatcher initialWatcherState
      [(0, WatchEvent.change "w/skills/foo/SKILL.md".toList),
       (100, WatchEvent.stopWatcher)] =
      [(500, ChangeCat.capabilities)] := by decide

end Proma
